import Mathlib

/-!
Verification of `shmdamage/hsmr.py` (py-shm-damage).

The module has two functions: `fun`, the scalar objective evaluated by the
optimizer, and `synthesis`, the two-stage fitting driver.  We embed both
shallowly.  Sequences of numpy floats are modelled as `List ℚ` (exact
arithmetic); the scipy minimizer `scipy.optimize.minimize(..., method='SLSQP')`
is a black box, modelled by an abstract `Minimizer` routine wrapped in the
bound validation that the scipy wrapper performs before iterating.  Exceptions
raised by numpy/scipy are modelled with `Except NpErr`.  A separate IEEE-style
value type `Flt` models the float special values needed for the
division-by-zero behaviour of `fun`, and a store-passing rendering
(`funH`, `synthesisH`) models the numpy heap for the frame property.
-/

/-- Extended value for the bound endpoints: the Python code uses
`-np.inf` / `np.inf` floats as default bounds, and finite floats otherwise. -/
inductive XV where
  | negInf
  | fin (v : ℚ)
  | posInf
  deriving DecidableEq

/-- Float comparison `a > b` on bound endpoints, as numpy evaluates it
(`inf > inf` is `False`, `inf > x` is `True` for finite `x`, etc.). -/
def XV.gtB : XV → XV → Bool
  | .posInf, .posInf => false
  | .posInf, _ => true
  | .fin a, .fin b => b < a
  | .fin _, .negInf => true
  | .fin _, .posInf => false
  | .negInf, _ => false

/-- `lo ≤ v` for a scalar `v` against a lower bound endpoint. -/
def XV.leLower : XV → ℚ → Bool
  | .negInf, _ => true
  | .fin a, v => a ≤ v
  | .posInf, _ => false

/-- `v ≤ hi` for a scalar `v` against an upper bound endpoint. -/
def XV.leUpper : ℚ → XV → Bool
  | _, .posInf => true
  | v, .fin b => v ≤ b
  | _, .negInf => false

/-- One bound interval, as in the tuple `(lo, hi)` of the Python call. -/
abbrev BoundPair := XV × XV

/-- The `bounds` tuple `((ds_min, ds_max), (s0_min, s0_max), (m0_min, m0_max))`
built at the top of `synthesis`. -/
abbrev BoundsT := BoundPair × BoundPair × BoundPair

/-- A parameter triple `(dyn_stiff, s_0, m_0)`, the content of the numpy
array `x` handed to and returned by the minimizer. -/
abbrev Triple := ℚ × ℚ × ℚ

/-- Membership of a triple in a bounds tuple (each component inside its own
closed, possibly unbounded, interval). -/
def inBounds (x : Triple) (b : BoundsT) : Bool :=
  XV.leLower b.1.1 x.1 && XV.leUpper x.1 b.1.2 &&
  (XV.leLower b.2.1.1 x.2.1 && XV.leUpper x.2.1 b.2.1.2) &&
  (XV.leLower b.2.2.1 x.2.2 && XV.leUpper x.2.2 b.2.2.2)

/-- Errors raised by the numpy/scipy calls that `synthesis` makes:
`valueError` models the `ValueError` numpy raises when reducing a zero-size
array (`np.linalg.norm(x, ord=np.inf)` on an empty array), `invalidBounds`
models the `ValueError('SLSQP Error: lb > ub in bounds')` the scipy SLSQP
wrapper raises during bound preprocessing. -/
inductive NpErr where
  | valueError
  | invalidBounds
  deriving DecidableEq

/-- The part of the scipy `OptimizeResult` that `synthesis` could read:
the iterate `res.x` and the convergence flag `res.success`. -/
structure OptResult where
  x : Triple
  success : Bool
  deriving DecidableEq

/-- An abstract minimization routine.  It receives exactly the data the call
sites in `synthesis` pass to `scipy.optimize.minimize`: the initial point
`x0`, the `args` tuple `(c, m_, norm)` of the objective, and the bounds (or
`none` when the call omits the `bounds` keyword). -/
abbrev Minimizer := Triple → List ℚ → List ℚ → ℕ → Option BoundsT → OptResult

/-- Some lower bound strictly exceeds its upper bound, the condition the
scipy SLSQP wrapper checks (`bnds[:, 0] > bnds[:, 1]`). -/
def boundsBad (b : BoundsT) : Bool :=
  XV.gtB b.1.1 b.1.2 || XV.gtB b.2.1.1 b.2.1.2 || XV.gtB b.2.2.1 b.2.2.2

/-- Model of `scipy.optimize.minimize(fun, x0, method='SLSQP', args=(c, m_, p),
bounds=bounds)`.  When bounds are supplied, the wrapper validates them
(raising on `lb > ub`) before any objective evaluation; the optimization
itself is the abstract routine `mz`.  When the call site passes no `bounds`
keyword (`bounds = None`), no validation happens and the fit is
unconstrained. -/
def minimizeM (mz : Minimizer) (x0 : Triple) (c m_ : List ℚ) (p : ℕ)
    (bounds : Option BoundsT) : Except NpErr OptResult :=
  match bounds with
  | none => .ok (mz x0 c m_ p none)
  | some b => if boundsBad b then .error .invalidBounds else .ok (mz x0 c m_ p (some b))

/-- `np.cumsum` on a 1-d array: running prefix sums. -/
def cumsumAux (running : ℚ) : List ℚ → List ℚ
  | [] => []
  | v :: rest => (running + v) :: cumsumAux (running + v) rest

/-- `np.cumsum(l)`. -/
def npCumsum (l : List ℚ) : List ℚ := cumsumAux 0 l

/-- Value of `np.linalg.norm(l, ord=np.inf)` on a nonempty array: the maximum
absolute value.  Folding `max` from `0` over the absolute values agrees with
the maximum on nonempty lists since every `|v|` is nonnegative. -/
def normInfVal (l : List ℚ) : ℚ := (l.map (fun v => |v|)).foldl max 0

/-- `np.linalg.norm(l, ord=np.inf)`, which raises `ValueError` on a
zero-size array. -/
def npNormInf (l : List ℚ) : Except NpErr ℚ :=
  if l.isEmpty then .error .valueError else .ok (normInfVal l)

/-- `np.arange(n)` as a rational list `[0, 1, ..., n-1]`. -/
def npArange (n : ℕ) : List ℚ := (List.range n).map (fun i => (Nat.cast i : ℚ))

/-- Lines 73–75 of `hsmr.py` (stage A):
`m_ = np.cumsum(np.cumsum(q)); m_ = m_ * np.linalg.norm(c, ord=np.inf) / np.linalg.norm(m_, ord=np.inf)`.
Each element is multiplied by `‖c‖∞` and then divided by `‖m_‖∞`, in that
order, as Python evaluates the expression. -/
def stageAMoment (c q : List ℚ) : Except NpErr (List ℚ) :=
  let m1 := npCumsum (npCumsum q)
  match npNormInf c, npNormInf m1 with
  | .ok nc, .ok nm => .ok (m1.map (fun v => v * nc / nm))
  | .error e, _ => .error e
  | _, .error e => .error e

/-- Lines 86–88 of `hsmr.py` (stage B): the same two lines, textually
repeated in the source before the final minimization. -/
def stageBMoment (c q : List ℚ) : Except NpErr (List ℚ) :=
  let m1 := npCumsum (npCumsum q)
  match npNormInf c, npNormInf m1 with
  | .ok nc, .ok nm => .ok (m1.map (fun v => v * nc / nm))
  | .error e, _ => .error e
  | _, .error e => .error e

/-- The dictionary `res_x_dict` that `synthesis` returns: exactly the three
fitted scalars, nothing else. -/
structure ResXDict where
  dyn_stiff : ℚ
  s_0 : ℚ
  m_0 : ℚ
  deriving DecidableEq

/-- The tuple `(c_h, m_, m, res_x_dict)` that `synthesis` returns. -/
structure SynthResult where
  c_h : List ℚ
  m_ : List ℚ
  m : List ℚ
  res_x_dict : ResXDict
  deriving DecidableEq

/-- Shallow embedding of `synthesis` (lines 69–101 of `hsmr.py`),
parameterized by the abstract minimization routine `mz`.  Stage A passes
`bounds=bounds` to `minimize`; the stage-B call in the source passes no
`bounds` keyword, so the embedding passes `none` there. -/
def synthesis (mz : Minimizer) (c q : List ℚ)
    (dyn_stiff_initial_guess s_0_initial_guess m_0_initial_guess : ℚ)
    (norm : ℕ)
    (dyn_stiff_min dyn_stiff_max s_0_min s_0_max m_0_min m_0_max : XV) :
    Except NpErr SynthResult :=
  let bounds : BoundsT :=
    ((dyn_stiff_min, dyn_stiff_max), (s_0_min, s_0_max), (m_0_min, m_0_max))
  let x0 : Triple := (dyn_stiff_initial_guess, s_0_initial_guess, m_0_initial_guess)
  match stageAMoment c q with
  | .error e => .error e
  | .ok m_A =>
    match minimizeM mz x0 c m_A 2 (some bounds) with
    | .error e => .error e
    | .ok res =>
      let dyn_stiff := res.x.1
      let s_0 := res.x.2.1
      let m_0 := res.x.2.2
      let x0B : Triple := (dyn_stiff, s_0, m_0)
      match stageBMoment c q with
      | .error e => .error e
      | .ok m_B =>
        match minimizeM mz x0B c m_B norm none with
        | .error e => .error e
        | .ok resB =>
          let dyn_stiffB := resB.x.1
          let s_0B := resB.x.2.1
          let m_0B := resB.x.2.2
          let m := List.zipWith (fun mi xi => mi + m_0B + xi * s_0B) m_B (npArange m_B.length)
          let c_h := m.map (fun v => v / dyn_stiffB)
          .ok ⟨c_h, m_B, m, ⟨dyn_stiffB, s_0B, m_0B⟩⟩

/-- Model of `np.linalg.norm(e, ord=p)` for a positive integer order `p`:
`(Σ |e i| ^ p) ^ (1/p)`.  (numpy's dedicated code paths for `p = 1` and
`p = 2` compute the same value.) -/
noncomputable def pNormR (p : ℕ) (e : List ℚ) : ℝ :=
  (((e.map (fun v => |v| ^ p)).sum : ℚ) : ℝ) ^ (((p : ℝ))⁻¹)

/-- Shallow embedding of `fun` (lines 5–13 of `hsmr.py`).  The numpy
elementwise expressions become `zipWith`/`map`; under the intended use the
lists have equal length, which the equal-length hypotheses of the theorems
below supply. -/
noncomputable def hsmrFun (x : Triple) (c m_ : List ℚ) (norm : ℕ) : ℝ :=
  let dyn_stiff := x.1
  let s_0 := x.2.1
  let m_0 := x.2.2
  let x_locs := npArange m_.length
  let bigM := List.zipWith (fun mi xi => mi + m_0 + xi * s_0) m_ x_locs
  let error := List.zipWith (fun ci mMi => ci - mMi / dyn_stiff) c bigM
  pNormR norm error

/-- The residual sequence exactly as the claim words it:
`e[i] = c[i] − (m̄[i] + initial_moment + i·initial_shear) / dynamic_stiffness`
for `i = 0 .. n−1`. -/
def specResidual (dyn_stiff s_0 m_0 : ℚ) (c m_ : List ℚ) : List ℚ :=
  (List.range c.length).map
    (fun i => c.getD i 0 - (m_.getD i 0 + m_0 + (i : ℚ) * s_0) / dyn_stiff)

/-- The baseline moment exactly as the claim words it: the double prefix sum
of `q`, with every element multiplied by `scale = ‖c‖∞ / ‖double-prefix-sum q‖∞`. -/
def specBaselineMoment (c q : List ℚ) : List ℚ :=
  let dd := npCumsum (npCumsum q)
  let scale := normInfVal c / normInfVal dd
  dd.map (fun v => v * scale)

/-- A constant minimization routine, used to instantiate the abstract
minimizer on concrete runs: it reports the triple `t` with flag `b`. -/
def constMin (t : Triple) (b : Bool) : Minimizer := fun _ _ _ _ _ => ⟨t, b⟩

/-- Clamp a scalar into a bound interval. -/
def clampQ (v : ℚ) (lo hi : XV) : ℚ :=
  let v1 := match lo with | .fin a => max a v | _ => v
  match hi with | .fin b => min v1 b | _ => v1

/-- A minimization routine that respects any bounds it is given (it clamps
the initial point into them) but, when invoked unconstrained, moves the
first coordinate down by one — as a real descent step may. -/
def driftMin : Minimizer := fun x0 _ _ _ bd =>
  match bd with
  | some b => ⟨(clampQ x0.1 b.1.1 b.1.2, clampQ x0.2.1 b.2.1.1 b.2.1.2,
                clampQ x0.2.2 b.2.2.1 b.2.2.2), true⟩
  | none => ⟨(x0.1 - 1, x0.2.1, x0.2.2), true⟩

/-- Replace the convergence flag a minimization routine reports by `b`,
leaving the iterate unchanged. -/
def setFlag (mz : Minimizer) (b : Bool) : Minimizer :=
  fun x0 c m_ p bd => ⟨(mz x0 c m_ p bd).x, b⟩

/-- IEEE-754-style value as numpy propagates it: a finite value (modelled
exactly as a real), positive or negative infinity, or NaN.  numpy emits
runtime warnings for `1/0`-style operations on floats but never raises, so
the operations below are total. -/
inductive Flt where
  | nan
  | pinf
  | ninf
  | fin (v : ℝ)

/-- Whether a float value is finite (syntactic check, independent of the
stored real). -/
def finiteF : Flt → Bool
  | .fin _ => true
  | _ => false

/-- IEEE addition on `Flt`. -/
noncomputable def addF : Flt → Flt → Flt
  | .nan, _ => .nan
  | _, .nan => .nan
  | .pinf, .ninf => .nan
  | .ninf, .pinf => .nan
  | .pinf, _ => .pinf
  | _, .pinf => .pinf
  | .ninf, _ => .ninf
  | _, .ninf => .ninf
  | .fin a, .fin b => .fin (a + b)

/-- IEEE subtraction on `Flt`. -/
noncomputable def subF : Flt → Flt → Flt
  | .nan, _ => .nan
  | _, .nan => .nan
  | .pinf, .pinf => .nan
  | .ninf, .ninf => .nan
  | .pinf, _ => .pinf
  | _, .pinf => .ninf
  | .ninf, _ => .ninf
  | _, .ninf => .pinf
  | .fin a, .fin b => .fin (a - b)

/-- IEEE multiplication on `Flt` (`inf * 0 = nan`). -/
noncomputable def mulF : Flt → Flt → Flt
  | .nan, _ => .nan
  | _, .nan => .nan
  | .pinf, .pinf => .pinf
  | .pinf, .ninf => .ninf
  | .ninf, .pinf => .ninf
  | .ninf, .ninf => .pinf
  | .pinf, .fin b => if 0 < b then .pinf else if b < 0 then .ninf else .nan
  | .fin a, .pinf => if 0 < a then .pinf else if a < 0 then .ninf else .nan
  | .ninf, .fin b => if 0 < b then .ninf else if b < 0 then .pinf else .nan
  | .fin a, .ninf => if 0 < a then .ninf else if a < 0 then .pinf else .nan
  | .fin a, .fin b => .fin (a * b)

/-- IEEE division on `Flt` (divisor zero is numpy's positive `0.0`):
`a/0` is `±inf` for finite nonzero `a`, `nan` for `0/0`, and `±inf/0`
stays `±inf`. -/
noncomputable def divF : Flt → Flt → Flt
  | .nan, _ => .nan
  | _, .nan => .nan
  | .pinf, .pinf => .nan
  | .pinf, .ninf => .nan
  | .ninf, .pinf => .nan
  | .ninf, .ninf => .nan
  | .pinf, .fin b => if 0 ≤ b then .pinf else .ninf
  | .ninf, .fin b => if 0 ≤ b then .ninf else .pinf
  | .fin _, .pinf => .fin 0
  | .fin _, .ninf => .fin 0
  | .fin a, .fin b =>
    if b = 0 then (if 0 < a then .pinf else if a < 0 then .ninf else .nan)
    else .fin (a / b)

/-- IEEE absolute value on `Flt`. -/
noncomputable def absF : Flt → Flt
  | .nan => .nan
  | .pinf => .pinf
  | .ninf => .pinf
  | .fin a => .fin |a|

/-- Float power with a natural exponent, as `x ** p` evaluates in numpy
(`anything ** 0 = 1.0`, including `nan ** 0`). -/
noncomputable def powF (x : Flt) (p : ℕ) : Flt :=
  if p = 0 then .fin 1 else
  match x with
  | .nan => .nan
  | .pinf => .pinf
  | .ninf => if p % 2 = 0 then .pinf else .ninf
  | .fin a => .fin (a ^ p)

/-- Float power `x ** (1.0 / p)` for a positive integer `p`, the final root
`np.linalg.norm` takes: for `p = 1` the exponent is `1.0` and the value is
unchanged; otherwise a negative finite base yields `nan` (fractional power)
and a nonnegative one its real `p`-th root. -/
noncomputable def rootF (p : ℕ) (x : Flt) : Flt :=
  match x with
  | .nan => .nan
  | .pinf => .pinf
  | .ninf => if p = 1 then .ninf else .nan
  | .fin v => if p = 1 then .fin v else if 0 ≤ v then .fin (v ^ (((p : ℝ))⁻¹)) else .nan

/-- `np.linalg.norm(e, ord=p)` over float values, positive integer `p`:
`(Σ |e i| ** p) ** (1/p)` with IEEE propagation. -/
noncomputable def pnormF (p : ℕ) (e : List Flt) : Flt :=
  rootF p ((e.map (fun v => powF (absF v) p)).foldl addF (.fin 0))

/-- `np.arange(n)` as float values. -/
noncomputable def arangeF (n : ℕ) : List Flt := (List.range n).map (fun i => .fin (Nat.cast i : ℝ))

/-- Shallow embedding of `fun` (lines 5–13 of `hsmr.py`) over float values,
keeping numpy's IEEE special-value propagation: no operation raises, and
division by a zero `dyn_stiff` floods the residual with `±inf`/`nan`. -/
noncomputable def funF (x : Flt × Flt × Flt) (c m_ : List Flt) (norm : ℕ) : Flt :=
  let dyn_stiff := x.1
  let s_0 := x.2.1
  let m_0 := x.2.2
  let x_locs := arangeF m_.length
  let bigM := List.zipWith (fun mi xi => addF (addF mi m_0) (mulF xi s_0)) m_ x_locs
  let error := List.zipWith (fun ci mMi => subF ci (divF mMi dyn_stiff)) c bigM
  pnormF norm error

/-- Heap of numpy arrays, for the frame properties: every array that exists
at some point of a call is a slot in the store, and every numpy operation
that builds an array allocates a fresh slot at the end. -/
abbrev Store := List (List ℚ)

/-- Allocate a fresh array in the store, returning the new store and the
index of the new slot. -/
def alloc (st : Store) (v : List ℚ) : Store × ℕ := (st ++ [v], st.length)

/-- Store-passing rendering of `fun`: the arrays `x`, `c`, `m_` live in the
store at the given indices, and each numpy expression (`np.arange`, the
broadcasts `m_ + m_0` and `x_locs * s_0`, their sum, the division by
`dyn_stiff`, and the residual) allocates a fresh array.  The returned loss
is a scalar and allocates nothing. -/
noncomputable def funH (st : Store) (xid cid mid : ℕ) (norm : ℕ) : Store × ℝ :=
  let x := st.getD xid []
  let c := st.getD cid []
  let m_ := st.getD mid []
  let dyn_stiff := x.getD 0 0
  let s_0 := x.getD 1 0
  let m_0 := x.getD 2 0
  let (st1, locId) := alloc st (npArange m_.length)
  let (st2, t1Id) := alloc st1 (m_.map (fun v => v + m_0))
  let (st3, t2Id) := alloc st2 ((st2.getD locId []).map (fun v => v * s_0))
  let (st4, bigMId) := alloc st3 (List.zipWith (fun a b => a + b) (st3.getD t1Id []) (st3.getD t2Id []))
  let (st5, t3Id) := alloc st4 ((st4.getD bigMId []).map (fun v => v / dyn_stiff))
  let (st6, errId) := alloc st5 (List.zipWith (fun a b => a - b) c (st5.getD t3Id []))
  (st6, pNormR norm (st6.getD errId []))

/-- Store-passing rendering of `synthesis`: the arrays `c` and `q` live in
the store at the given indices; every array the body builds (`x0`, the two
cumulative sums, the two normalization products, the stage-B copies, the
fitted moment and its temporaries, and `c_h`) is allocated fresh.  The
scalar norms allocate nothing.  The abstract minimizer receives values only
(scipy does not write to the caller's arrays) and errors are dropped, which
is sound for a frame property: a raising run performs a prefix of these
allocations.  Returns the final store, the indices of `c_h`, `m_` and `m`,
and the result dictionary. -/
noncomputable def synthesisH (mz : Minimizer) (st : Store) (cid qid : ℕ)
    (g1 g2 g3 : ℚ) (nrm : ℕ) (b1 b2 b3 b4 b5 b6 : XV) :
    Store × (ℕ × ℕ × ℕ) × ResXDict :=
  let c := st.getD cid []
  let q := st.getD qid []
  let bounds : BoundsT := ((b1, b2), (b3, b4), (b5, b6))
  let (st1, x0Id) := alloc st [g1, g2, g3]
  let (st2, tAId) := alloc st1 (npCumsum q)
  let (st3, mA1Id) := alloc st2 (npCumsum (st2.getD tAId []))
  let (st4, tA2Id) := alloc st3 ((st3.getD mA1Id []).map (fun v => v * normInfVal c))
  let (st5, mAId) := alloc st4 ((st4.getD tA2Id []).map (fun v => v / normInfVal (st4.getD mA1Id [])))
  let x0v := st5.getD x0Id []
  let resA := mz (x0v.getD 0 0, x0v.getD 1 0, x0v.getD 2 0) c (st5.getD mAId []) 2 (some bounds)
  let (st6, x0BId) := alloc st5 [resA.x.1, resA.x.2.1, resA.x.2.2]
  let (st7, tBId) := alloc st6 (npCumsum q)
  let (st8, mB1Id) := alloc st7 (npCumsum (st7.getD tBId []))
  let (st9, tB2Id) := alloc st8 ((st8.getD mB1Id []).map (fun v => v * normInfVal c))
  let (st10, mBId) := alloc st9 ((st9.getD tB2Id []).map (fun v => v / normInfVal (st9.getD mB1Id [])))
  let x0Bv := st10.getD x0BId []
  let resB := mz (x0Bv.getD 0 0, x0Bv.getD 1 0, x0Bv.getD 2 0) c (st10.getD mBId []) nrm none
  let dyn_stiff := resB.x.1
  let s_0 := resB.x.2.1
  let m_0 := resB.x.2.2
  let mB := st10.getD mBId []
  let (st11, t4Id) := alloc st10 (mB.map (fun v => v + m_0))
  let (st12, arId) := alloc st11 (npArange mB.length)
  let (st13, t5Id) := alloc st12 ((st12.getD arId []).map (fun v => v * s_0))
  let (st14, mId) := alloc st13 (List.zipWith (fun a b => a + b) (st13.getD t4Id []) (st13.getD t5Id []))
  let (st15, chId) := alloc st14 ((st14.getD mId []).map (fun v => v / dyn_stiff))
  (st15, (chId, mBId, mId), ⟨dyn_stiff, s_0, m_0⟩)

theorem cumsumAux_length (l : List ℚ) : ∀ r, (cumsumAux r l).length = l.length := by
  induction l with
  | nil => intro r; rfl
  | cons v rest ih => intro r; simp [cumsumAux, ih]

theorem npCumsum_length (l : List ℚ) : (npCumsum l).length = l.length :=
  cumsumAux_length l 0

theorem npArange_length (n : ℕ) : (npArange n).length = n := by
  rw [npArange, List.length_map, List.length_range]

theorem stageB_ok_length (c q l : List ℚ) (h : stageBMoment c q = .ok l) :
    l.length = q.length := by
  dsimp only [stageBMoment] at h
  split at h
  case _ heq1 heq2 =>
    simp only [Except.ok.injEq] at h
    subst h
    simp [npCumsum_length]
  case _ => exact absurd h (by simp)
  case _ => exact absurd h (by simp)

theorem stageA_ok_ne (c q : List ℚ) (l : List ℚ) (h : stageAMoment c q = .ok l) :
    c ≠ [] ∧ q ≠ [] := by
  dsimp only [stageAMoment] at h
  split at h
  case _ nc nm heq1 heq2 =>
    unfold npNormInf at heq1 heq2
    constructor
    · intro hc; subst hc; simp at heq1
    · intro hq; subst hq; simp [npCumsum, cumsumAux] at heq2
  case _ => exact absurd h (by simp)
  case _ => exact absurd h (by simp)

theorem stageB_spec (c q : List ℚ) (hc : c ≠ []) (hq : q ≠ []) :
    stageBMoment c q = .ok (specBaselineMoment c q) := by
  have h1 : (npCumsum (npCumsum q)) ≠ [] := by
    intro h
    have hlen : (npCumsum (npCumsum q)).length = q.length := by
      rw [npCumsum_length, npCumsum_length]
    rw [h] at hlen
    exact hq (List.length_eq_zero.mp hlen.symm)
  dsimp only [stageBMoment, specBaselineMoment]
  rw [npNormInf, npNormInf, if_neg (by simpa using hc), if_neg (by simpa using h1)]
  simp only [Except.ok.injEq, List.map_inj_left]
  intro v hv
  rw [mul_div_assoc]

theorem synthesis_ok_parts (mz : Minimizer) (c q : List ℚ) (g1 g2 g3 : ℚ) (nrm : ℕ)
    (b1 b2 b3 b4 b5 b6 : XV) (r : SynthResult)
    (h : synthesis mz c q g1 g2 g3 nrm b1 b2 b3 b4 b5 b6 = .ok r) :
    stageBMoment c q = .ok r.m_ ∧ r.m.length = r.m_.length ∧
    r.c_h.length = r.m_.length ∧ c ≠ [] ∧ q ≠ [] := by
  dsimp only [synthesis] at h
  split at h
  case _ => exact absurd h (by simp)
  case _ mA hA =>
    split at h
    case _ => exact absurd h (by simp)
    case _ res hres =>
      split at h
      case _ => exact absurd h (by simp)
      case _ mB hB =>
        dsimp only [minimizeM] at h
        simp only [Except.ok.injEq] at h
        subst h
        refine ⟨hB, ?_, ?_, (stageA_ok_ne c q mA hA).1, (stageA_ok_ne c q mA hA).2⟩
        · rw [List.length_zipWith, npArange_length, min_self]
        · rw [List.length_map, List.length_zipWith, npArange_length, min_self]

theorem residual_eq (ds s0 m0 : ℚ) (c m_ : List ℚ) (hlen : c.length = m_.length) :
    List.zipWith (fun ci mMi => ci - mMi / ds) c
      (List.zipWith (fun mi xi => mi + m0 + xi * s0) m_ (npArange m_.length))
    = specResidual ds s0 m0 c m_ := by
  apply List.ext_getElem
  · rw [List.length_zipWith, List.length_zipWith, npArange_length, min_self, ← hlen,
      min_self, specResidual, List.length_map, List.length_range]
  · intro i h1 h2
    have hi : i < c.length := by
      rw [List.length_zipWith, List.length_zipWith, npArange_length, min_self, ← hlen,
        min_self] at h1
      exact h1
    have him : i < m_.length := hlen ▸ hi
    simp only [List.getElem_zipWith, specResidual, npArange, List.getElem_map,
      List.getElem_range, List.getD_eq_getElem c 0 hi, List.getD_eq_getElem m_ 0 him]

theorem divF_zero_not_finite (y : Flt) : finiteF (divF y (.fin 0)) = false := by
  cases y with
  | nan => rfl
  | pinf => simp [divF, finiteF]
  | ninf => simp [divF, finiteF]
  | fin a =>
    rw [divF]
    rw [if_pos rfl]
    split_ifs <;> rfl

theorem subF_not_finite (x y : Flt) (h : finiteF y = false) : finiteF (subF x y) = false := by
  cases x <;> cases y <;> simp_all [subF, finiteF]

theorem absF_split (e : Flt) (h : finiteF e = false) : absF e = .pinf ∨ absF e = .nan := by
  cases e <;> simp_all [absF, finiteF]

theorem powF_split (x : Flt) (p : ℕ) (hp : 1 ≤ p) (h : x = .pinf ∨ x = .nan) :
    powF x p = .pinf ∨ powF x p = .nan := by
  rcases h with h | h <;> subst h <;> rw [powF] <;> rw [if_neg (by omega)] <;> simp

theorem foldl_addF_split (l : List Flt) (hl : ∀ e ∈ l, e = .pinf ∨ e = .nan) :
    ∀ acc : Flt, (acc = .pinf ∨ acc = .nan) →
      (l.foldl addF acc = .pinf ∨ l.foldl addF acc = .nan) := by
  induction l with
  | nil => intro acc hacc; simpa using hacc
  | cons e rest ih =>
    intro acc hacc
    have he : e = .pinf ∨ e = .nan := hl e (by simp)
    have hstep : addF acc e = .pinf ∨ addF acc e = .nan := by
      rcases hacc with h1 | h1 <;> rcases he with h2 | h2 <;> subst h1 <;> subst h2 <;>
        simp [addF]
    exact ih (fun x hx => hl x (by simp [hx])) (addF acc e) hstep

theorem rootF_split (p : ℕ) (x : Flt) (h : x = .pinf ∨ x = .nan) :
    rootF p x = .pinf ∨ rootF p x = .nan := by
  rcases h with h | h <;> subst h <;> simp [rootF]

theorem addF_fin_split (v : ℝ) (y : Flt) (h : y = .pinf ∨ y = .nan) :
    addF (.fin v) y = .pinf ∨ addF (.fin v) y = .nan := by
  rcases h with h | h <;> subst h <;> simp [addF]

theorem arangeF_length (n : ℕ) : (arangeF n).length = n := by
  rw [arangeF, List.length_map, List.length_range]

theorem zip_err_not_finite : ∀ (a b : List Flt),
    ∀ e ∈ List.zipWith (fun ci mMi => subF ci (divF mMi (Flt.fin 0))) a b,
      finiteF e = false := by
  intro a
  induction a with
  | nil => intro b e he; simp at he
  | cons x rest ih =>
    intro b e he
    cases b with
    | nil => simp at he
    | cons y brest =>
      simp only [List.zipWith] at he
      rcases (List.mem_cons).mp he with h | h
      · subst h; exact subF_not_finite x _ (divF_zero_not_finite y)
      · exact ih brest e h

theorem take_len_append (a b : Store) : (a ++ b).take a.length = a := by
  simp [List.take_left]

theorem funH_frame (st : Store) (xid cid mid nrm : ℕ) :
    ((funH st xid cid mid nrm).1).take st.length = st := by
  simp only [funH, alloc, List.append_assoc]
  exact take_len_append st _

theorem synthesisH_frame (mz : Minimizer) (st : Store) (cid qid : ℕ)
    (g1 g2 g3 : ℚ) (nrm : ℕ) (b1 b2 b3 b4 b5 b6 : XV) :
    ((synthesisH mz st cid qid g1 g2 g3 nrm b1 b2 b3 b4 b5 b6).1).take st.length = st ∧
    st.length ≤ (synthesisH mz st cid qid g1 g2 g3 nrm b1 b2 b3 b4 b5 b6).2.1.1 ∧
    st.length ≤ (synthesisH mz st cid qid g1 g2 g3 nrm b1 b2 b3 b4 b5 b6).2.1.2.1 ∧
    st.length ≤ (synthesisH mz st cid qid g1 g2 g3 nrm b1 b2 b3 b4 b5 b6).2.1.2.2 := by
  refine ⟨?_, ?_, ?_, ?_⟩
  · simp only [synthesisH, alloc, List.append_assoc]
    exact take_len_append st _
  · simp only [synthesisH, alloc, List.append_assoc, List.length_append, List.length_cons,
      List.length_nil]
    omega
  · simp only [synthesisH, alloc, List.append_assoc, List.length_append, List.length_cons,
      List.length_nil]
    omega
  · simp only [synthesisH, alloc, List.append_assoc, List.length_append, List.length_cons,
      List.length_nil]
    omega

/-- Claim C1 (code bug): the claim says the stage-B (final) minimization runs
subject to the same caller-supplied bound intervals as stage A, so that every
component of the returned triple lies within its interval.  The source omits
`bounds=bounds` in the stage-B `minimize` call, so the final fit is
unconstrained: here a minimization routine that provably respects the bounds
it is handed (it clamps into them, as witnessed by the first conjunct for the
stage-A call) still makes `synthesis`, called with `dyn_stiff` bounds
`[2, 3]`, return `dyn_stiff = 1`, outside the caller's interval. -/
theorem c1_stageB_unbounded_violates_caller_bounds :
    inBounds (driftMin (1, 0, 0) [1] [1] 2
        (some ((XV.fin 2, XV.fin 3), (XV.negInf, XV.posInf), (XV.negInf, XV.posInf)))).x
      ((XV.fin 2, XV.fin 3), (XV.negInf, XV.posInf), (XV.negInf, XV.posInf)) = true ∧
    synthesis driftMin [1] [1] 1 0 0 1
      (XV.fin 2) (XV.fin 3) XV.negInf XV.posInf XV.negInf XV.posInf
      = .ok ⟨[1], [1], [1], ⟨1, 0, 0⟩⟩ ∧
    inBounds (1, 0, 0)
      ((XV.fin 2, XV.fin 3), (XV.negInf, XV.posInf), (XV.negInf, XV.posInf)) = false := by
  refine ⟨?_, ?_, ?_⟩
  · norm_num [driftMin, clampQ, inBounds, XV.leLower, XV.leUpper, max_def, min_def]
  · norm_num [synthesis, stageAMoment, stageBMoment, npCumsum, cumsumAux,
      npNormInf, normInfVal, npArange, minimizeM, boundsBad, XV.gtB, driftMin, clampQ,
      max_def, min_def, abs, List.range_succ]
  · norm_num [inBounds, XV.leLower, XV.leUpper]

/-- Claim C2, counterexample: a call with `len(c) = 1 ≠ 2 = len(q)` is not
rejected — `synthesis` completes normally (numpy broadcasting makes the
residual well-defined inside the objective), returning sequences of length 2,
so no error is reported before reconstruction. -/
theorem c2_counterexample_mismatch_not_rejected :
    [(1 : ℚ)].length ≠ [(1 : ℚ), 1].length ∧
    synthesis (constMin (1, 0, 0) true) [1] [1, 1] 1 0 0 1
      XV.negInf XV.posInf XV.negInf XV.posInf XV.negInf XV.posInf
      = .ok ⟨[1/3, 1], [1/3, 1], [1/3, 1], ⟨1, 0, 0⟩⟩ := by
  constructor
  · simp
  · norm_num [synthesis, stageAMoment, stageBMoment, npCumsum, cumsumAux,
      npNormInf, normInfVal, npArange, minimizeM, boundsBad, XV.gtB, constMin,
      max_def, abs, List.range_succ]

/-- Claim C2, amended: `synthesis` performs no shape validation of its own.
A zero common length does produce an error, but it is raised by the
infinity-norm inside the baseline normalization — after the double cumulative
sum — not before reconstruction; and a bare length mismatch is not rejected
at all (errors, if any, arise downstream inside the objective). -/
theorem c2_amended_zero_length_errors_in_normalization (mz : Minimizer)
    (c q : List ℚ) (g1 g2 g3 : ℚ) (nrm : ℕ) (b1 b2 b3 b4 b5 b6 : XV)
    (h : c = [] ∨ q = []) :
    synthesis mz c q g1 g2 g3 nrm b1 b2 b3 b4 b5 b6 = .error .valueError := by
  rcases h with h | h
  · subst h
    dsimp only [synthesis, stageAMoment]
    simp [npNormInf]
  · subst h
    dsimp only [synthesis, stageAMoment]
    cases c with
    | nil => simp [npNormInf]
    | cons v rest => simp [npNormInf, npCumsum, cumsumAux]

/-- Witness for the amended claim C2 at the concrete empty input. -/
theorem c2_amended_witness :
    (([] : List ℚ) = [] ∨ ([] : List ℚ) = []) ∧
    synthesis (constMin (1, 0, 0) true) [] [] 1 0 0 1
      XV.negInf XV.posInf XV.negInf XV.posInf XV.negInf XV.posInf
      = .error .valueError :=
  ⟨Or.inl rfl,
    c2_amended_zero_length_errors_in_normalization (constMin (1, 0, 0) true)
      [] [] 1 0 0 1 XV.negInf XV.posInf XV.negInf XV.posInf XV.negInf XV.posInf
      (Or.inl rfl)⟩

/-- Claim C3, counterexample: two runs whose minimizer results differ only in
the convergence flag return identical values, so the value returned by
`synthesis` neither carries nor lets the caller query the flag. -/
theorem c3_counterexample_flag_not_in_result :
    synthesis (constMin (1, 0, 0) true) [1] [1] 1 0 0 1
      XV.negInf XV.posInf XV.negInf XV.posInf XV.negInf XV.posInf =
    synthesis (constMin (1, 0, 0) false) [1] [1] 1 0 0 1
      XV.negInf XV.posInf XV.negInf XV.posInf XV.negInf XV.posInf ∧
    (constMin (1, 0, 0) true (1, 0, 0) [] [] 0 none).success ≠
    (constMin (1, 0, 0) false (1, 0, 0) [] [] 0 none).success :=
  ⟨rfl, by simp [constMin]⟩

/-- Claim C3, amended: on non-convergence no exception is raised and the best
iterate's parameters are still used and returned, but the convergence status
is discarded: the value `synthesis` returns depends only on the minimizer's
iterate `res.x`, never on `res.success`, for every minimizer and input. -/
theorem c3_amended_result_independent_of_convergence_flag (mz : Minimizer)
    (b b' : Bool) (c q : List ℚ) (g1 g2 g3 : ℚ) (nrm : ℕ)
    (b1 b2 b3 b4 b5 b6 : XV) :
    synthesis (setFlag mz b) c q g1 g2 g3 nrm b1 b2 b3 b4 b5 b6 =
    synthesis (setFlag mz b') c q g1 g2 g3 nrm b1 b2 b3 b4 b5 b6 := by
  dsimp only [synthesis, minimizeM, setFlag]
  cases stageAMoment c q with
  | error e => rfl
  | ok mA =>
    by_cases hb : boundsBad ((b1, b2), (b3, b4), (b5, b6)) = true
    · simp [hb]
    · simp [hb]

/-- Claim C4, counterexample: an initial guess outside its bound interval
(`dyn_stiff` guess `5` with bounds `[0, 1]`) is not rejected — the call
completes normally, so `synthesis` does not report an error before (or
instead of) optimizing. -/
theorem c4_counterexample_guess_outside_bounds_not_rejected :
    inBounds (5, 0, 0)
      ((XV.fin 0, XV.fin 1), (XV.negInf, XV.posInf), (XV.negInf, XV.posInf)) = false ∧
    synthesis (constMin (1/2, 0, 0) true) [1] [1] 5 0 0 1
      (XV.fin 0) (XV.fin 1) XV.negInf XV.posInf XV.negInf XV.posInf
      = .ok ⟨[2], [1], [1], ⟨1/2, 0, 0⟩⟩ := by
  constructor
  · norm_num [inBounds, XV.leLower, XV.leUpper]
  · norm_num [synthesis, stageAMoment, stageBMoment, npCumsum, cumsumAux,
      npNormInf, normInfVal, npArange, minimizeM, boundsBad, XV.gtB, constMin,
      max_def, abs, List.range_succ]

/-- Claim C4, amended: when some bound interval has its lower endpoint above
its upper endpoint, the error is raised by the minimizer wrapper during the
stage-A call — before any optimization, though after baseline reconstruction —
independently of the optimization routine; an initial guess outside its bounds
is not rejected (see the counterexample). -/
theorem c4_amended_bad_bounds_error (mz : Minimizer) (c q : List ℚ)
    (g1 g2 g3 : ℚ) (nrm : ℕ) (b1 b2 b3 b4 b5 b6 : XV)
    (hc : c ≠ []) (hq : q ≠ [])
    (hbad : boundsBad ((b1, b2), (b3, b4), (b5, b6)) = true) :
    synthesis mz c q g1 g2 g3 nrm b1 b2 b3 b4 b5 b6 = .error .invalidBounds := by
  have hA : stageAMoment c q = .ok (specBaselineMoment c q) := stageB_spec c q hc hq
  dsimp only [synthesis]
  rw [hA]
  simp [minimizeM, hbad]

/-- Witness for the amended claim C4 at a concrete input with
`dyn_stiff` bounds `[3, 2]` (lower above upper). -/
theorem c4_amended_witness :
    ([(1 : ℚ)] ≠ [] ∧ [(1 : ℚ)] ≠ [] ∧
      boundsBad ((XV.fin 3, XV.fin 2), (XV.negInf, XV.posInf),
        (XV.negInf, XV.posInf)) = true) ∧
    synthesis (constMin (1, 0, 0) true) [1] [1] 1 0 0 1
      (XV.fin 3) (XV.fin 2) XV.negInf XV.posInf XV.negInf XV.posInf
      = .error .invalidBounds :=
  ⟨⟨by simp, by simp, by norm_num [boundsBad, XV.gtB]⟩,
    c4_amended_bad_bounds_error (constMin (1, 0, 0) true) [1] [1] 1 0 0 1
      (XV.fin 3) (XV.fin 2) XV.negInf XV.posInf XV.negInf XV.posInf
      (by simp) (by simp) (by norm_num [boundsBad, XV.gtB])⟩

/-- Claim C5: for every parameter triple, curvature and baseline-moment
sequences of a common length, and norm order `p ≥ 1`, `fun` returns the
`p`-norm of the residual `e[i] = c[i] − (m̄[i] + m_0 + i·s_0) / dyn_stiff`
for `i = 0 .. n−1`. -/
theorem c5_fun_is_pnorm_of_residual (x : Triple) (c m_ : List ℚ) (p : ℕ)
    (hp : 1 ≤ p) (hlen : c.length = m_.length) :
    hsmrFun x c m_ p = pNormR p (specResidual x.1 x.2.1 x.2.2 c m_) := by
  dsimp only [hsmrFun]
  rw [residual_eq x.1 x.2.1 x.2.2 c m_ hlen]

/-- Witness for claim C5 at a concrete input. -/
theorem c5_witness :
    (1 ≤ 1 ∧ [(3 : ℚ)].length = [(2 : ℚ)].length) ∧
    hsmrFun (1, 0, 0) [3] [2] 1 = pNormR 1 (specResidual 1 0 0 [3] [2]) :=
  ⟨⟨le_refl 1, rfl⟩, c5_fun_is_pnorm_of_residual (1, 0, 0) [3] [2] 1 (le_refl 1) rfl⟩

/-- Claim C6: for every valid input pair of common length `n ≥ 1`, the
baseline moment returned (and used) by `synthesis` is the double prefix sum
of `q` with every element multiplied by `‖c‖∞ / ‖double-prefix-sum q‖∞`. -/
theorem c6_baseline_is_scaled_double_cumsum (mz : Minimizer) (c q : List ℚ)
    (g1 g2 g3 : ℚ) (nrm : ℕ) (b1 b2 b3 b4 b5 b6 : XV) (r : SynthResult)
    (hlen : c.length = q.length) (hn : 1 ≤ q.length)
    (h : synthesis mz c q g1 g2 g3 nrm b1 b2 b3 b4 b5 b6 = .ok r) :
    r.m_ = specBaselineMoment c q := by
  obtain ⟨hB, -, -, hc, hq⟩ := synthesis_ok_parts mz c q g1 g2 g3 nrm b1 b2 b3 b4 b5 b6 r h
  have hs := stageB_spec c q hc hq
  rw [hB] at hs
  exact (Except.ok.injEq _ _).mp hs

/-- Witness for claim C6 at a concrete input. -/
theorem c6_witness :
    ([(1 : ℚ)].length = [(1 : ℚ)].length ∧ 1 ≤ [(1 : ℚ)].length) ∧
    (⟨[1], [1], [1], ⟨1, 0, 0⟩⟩ : SynthResult).m_ = specBaselineMoment [1] [1] :=
  ⟨⟨rfl, by norm_num⟩,
    c6_baseline_is_scaled_double_cumsum (constMin (1, 0, 0) true) [1] [1] 1 0 0 1
      XV.negInf XV.posInf XV.negInf XV.posInf XV.negInf XV.posInf
      ⟨[1], [1], [1], ⟨1, 0, 0⟩⟩ rfl (by norm_num)
      (by norm_num [synthesis, stageAMoment, stageBMoment, npCumsum, cumsumAux,
        npNormInf, normInfVal, npArange, minimizeM, boundsBad, XV.gtB, constMin,
        max_def, abs, List.range_succ])⟩

/-- Claim C7: the baseline moment used by stage B is recomputed by exactly
the code of stage A (lines 86–88 repeat lines 73–75), so the two stages use
identical baseline moments on every input — `synthesis` invokes
`stageAMoment` before the first minimization and `stageBMoment` before the
second. -/
theorem c7_stage_moments_identical : ∀ c q : List ℚ, stageAMoment c q = stageBMoment c q :=
  fun _ _ => rfl

/-- Claim C8: for all valid inputs of common length `n ≥ 1` on which
`synthesis` returns, each of the three returned sequences (`c_h`, `m_`, `m`)
has length exactly `n`. -/
theorem c8_length_preservation (mz : Minimizer) (c q : List ℚ)
    (g1 g2 g3 : ℚ) (nrm : ℕ) (b1 b2 b3 b4 b5 b6 : XV) (r : SynthResult)
    (hlen : c.length = q.length)
    (h : synthesis mz c q g1 g2 g3 nrm b1 b2 b3 b4 b5 b6 = .ok r) :
    r.c_h.length = c.length ∧ r.m_.length = c.length ∧ r.m.length = c.length := by
  obtain ⟨hB, hm, hch, -, -⟩ := synthesis_ok_parts mz c q g1 g2 g3 nrm b1 b2 b3 b4 b5 b6 r h
  have hq := stageB_ok_length c q r.m_ hB
  refine ⟨?_, ?_, ?_⟩ <;> omega

/-- Witness for claim C8 at a concrete input. -/
theorem c8_witness :
    [(2 : ℚ)].length = [(1 : ℚ)].length ∧
    ((⟨[4], [2], [2], ⟨1/2, 0, 0⟩⟩ : SynthResult).c_h.length = [(2 : ℚ)].length ∧
     (⟨[4], [2], [2], ⟨1/2, 0, 0⟩⟩ : SynthResult).m_.length = [(2 : ℚ)].length ∧
     (⟨[4], [2], [2], ⟨1/2, 0, 0⟩⟩ : SynthResult).m.length = [(2 : ℚ)].length) :=
  ⟨rfl,
    c8_length_preservation (constMin (1/2, 0, 0) true) [2] [1] 1 0 0 1
      XV.negInf XV.posInf XV.negInf XV.posInf XV.negInf XV.posInf
      ⟨[4], [2], [2], ⟨1/2, 0, 0⟩⟩ rfl
      (by norm_num [synthesis, stageAMoment, stageBMoment, npCumsum, cumsumAux,
        npNormInf, normInfVal, npArange, minimizeM, boundsBad, XV.gtB, constMin,
        max_def, abs, List.range_succ])⟩

/-- Claim C9: evaluating `fun` with `dynamic_stiffness = 0` raises no
exception for any inputs (the embedding's float operations are total, as
numpy's are — they only warn): the division by zero floods the residual with
non-finite values (`±inf`/`nan`), and for any nonempty input of common
length and norm order `p ≥ 1` the returned loss is `inf` or `nan`. -/
theorem c9_zero_stiffness_loss_nonfinite (s_0 m_0 : Flt) (c m_ : List Flt)
    (p : ℕ) (hp : 1 ≤ p) (hlen : c.length = m_.length) (hn : 1 ≤ c.length) :
    funF (.fin 0, s_0, m_0) c m_ p = .pinf ∨ funF (.fin 0, s_0, m_0) c m_ p = .nan := by
  dsimp only [funF, pnormF]
  apply rootF_split
  set bigM := List.zipWith (fun mi xi => addF (addF mi m_0) (mulF xi s_0)) m_
    (arangeF m_.length) with hbigM
  set E := List.zipWith (fun ci mMi => subF ci (divF mMi (Flt.fin 0))) c bigM with hE
  have hmap : ∀ y ∈ E.map (fun v => powF (absF v) p), y = Flt.pinf ∨ y = Flt.nan := by
    intro y hy
    rcases List.mem_map.mp hy with ⟨e, he, rfl⟩
    exact powF_split _ p hp (absF_split e (zip_err_not_finite c bigM e he))
  have hElen : E.length = c.length := by
    rw [hE, List.length_zipWith, hbigM, List.length_zipWith, arangeF_length, min_self,
      ← hlen, min_self]
  cases hEc : E with
  | nil =>
    rw [hEc] at hElen
    simp at hElen
    omega
  | cons e0 erest =>
    rw [hEc] at hmap
    simp only [List.map, List.foldl]
    apply foldl_addF_split
    · intro y hy
      exact hmap y (by simp [hy])
    · exact addF_fin_split 0 _ (hmap _ (by simp))

/-- Witness for claim C9 at a concrete input. -/
theorem c9_witness :
    (1 ≤ 1 ∧ [Flt.fin 1].length = [Flt.fin 1].length ∧ 1 ≤ [Flt.fin 1].length) ∧
    (funF (.fin 0, .fin 0, .fin 0) [.fin 1] [.fin 1] 1 = .pinf ∨
     funF (.fin 0, .fin 0, .fin 0) [.fin 1] [.fin 1] 1 = .nan) :=
  ⟨⟨le_refl 1, rfl, by norm_num⟩,
    c9_zero_stiffness_loss_nonfinite (.fin 0) (.fin 0) [.fin 1] [.fin 1] 1
      (le_refl 1) rfl (by norm_num)⟩

/-- Claim C10: neither `fun` nor `synthesis` mutates its input arrays: in the
store-passing rendering, every array existing before the call (in particular
`c`, `q`, the parameter array `x`, and the baseline moment) is unchanged — the
old store is literally the prefix of the new one — and the three sequences
`synthesis` returns live in freshly allocated slots past the old store. -/
theorem c10_no_input_mutation :
    (∀ (st : Store) (xid cid mid nrm : ℕ),
      ((funH st xid cid mid nrm).1).take st.length = st) ∧
    (∀ (mz : Minimizer) (st : Store) (cid qid : ℕ) (g1 g2 g3 : ℚ) (nrm : ℕ)
      (b1 b2 b3 b4 b5 b6 : XV),
      ((synthesisH mz st cid qid g1 g2 g3 nrm b1 b2 b3 b4 b5 b6).1).take st.length = st ∧
      st.length ≤ (synthesisH mz st cid qid g1 g2 g3 nrm b1 b2 b3 b4 b5 b6).2.1.1 ∧
      st.length ≤ (synthesisH mz st cid qid g1 g2 g3 nrm b1 b2 b3 b4 b5 b6).2.1.2.1 ∧
      st.length ≤ (synthesisH mz st cid qid g1 g2 g3 nrm b1 b2 b3 b4 b5 b6).2.1.2.2) :=
  ⟨funH_frame, fun mz st cid qid g1 g2 g3 nrm b1 b2 b3 b4 b5 b6 =>
    synthesisH_frame mz st cid qid g1 g2 g3 nrm b1 b2 b3 b4 b5 b6⟩
